import Mathlib

/-!
Verification of the CIEPS (Certificate Issuance External Policy Service)
wire-contract helpers of `sdk/helper/certutil/cieps.go`: the
`CIEPSRequest`/`CIEPSResponse` data model, `ParseUserCSR`,
`MarshalCertificate`, the JSON field layout given by the struct tags, and
the standby-forwarding contract documented on `CIEPSVaultParams`.

Go byte strings are modelled as lists of byte values (`GoStr`).  All
string constants in the source are ASCII, so mapping each character to its
code point agrees with UTF-8 encoding.  The PEM and base64 routines the
source calls (`encoding/pem.Decode`, `pem.EncodeToMemory`,
`encoding/base64.StdEncoding`) are translated here as executable
functions; `pem.Decode` is modelled on inputs holding at most one
candidate BEGIN marker (the standard library rescans later markers after
a malformed candidate; the repository never feeds it such input) and
without header-line support (the repository neither emits nor consumes
PEM headers).
-/

/-- Byte-string model of a Go `string` / `[]byte`: the list of byte values. -/
abbrev GoStr := List Nat

/-- The byte values of an ASCII string literal. -/
def ascii (s : String) : GoStr := s.data.map Char.toNat

/-- Decimal rendering of a natural number, as Go `fmt`'s `%v` prints an
`int` (the values rendered in this development are lengths, hence
non-negative). -/
def natDec (n : Nat) : GoStr :=
  if h : n < 10 then [48 + n]
  else natDec (n / 10) ++ [48 + n % 10]
termination_by n
decreasing_by
  exact Nat.div_lt_self (by omega) (by omega)

/-- Character of the standard base64 alphabet at index `i < 64`
(`encoding/base64.StdEncoding`). -/
def b64Char (i : Nat) : Nat :=
  if i < 26 then 65 + i
  else if i < 52 then 97 + (i - 26)
  else if i < 62 then 48 + (i - 52)
  else if i = 62 then 43
  else 47

/-- Index of a byte in the standard base64 alphabet, `none` for a byte
outside the alphabet (also for the padding byte 61, `=`). -/
def b64Index (c : Nat) : Option Nat :=
  if 65 ≤ c ∧ c ≤ 90 then some (c - 65)
  else if 97 ≤ c ∧ c ≤ 122 then some (c - 97 + 26)
  else if 48 ≤ c ∧ c ≤ 57 then some (c - 48 + 52)
  else if c = 43 then some 62
  else if c = 47 then some 63
  else none

/-- Standard base64 encoding with padding
(`base64.StdEncoding.EncodeToString`), three input bytes per four output
bytes. -/
def base64Encode : List Nat → List Nat
  | [] => []
  | [b1] => [b64Char (b1 / 4), b64Char (b1 % 4 * 16), 61, 61]
  | [b1, b2] => [b64Char (b1 / 4), b64Char (b1 % 4 * 16 + b2 / 16), b64Char (b2 % 16 * 4), 61]
  | b1 :: b2 :: b3 :: rest =>
    b64Char (b1 / 4) :: b64Char (b1 % 4 * 16 + b2 / 16) ::
      b64Char (b2 % 16 * 4 + b3 / 64) :: b64Char (b3 % 64) :: base64Encode rest

/-- Standard base64 decoding (`base64.StdEncoding.Decode`) after newline
removal: the input must be groups of four alphabet bytes, the final group
optionally padded with one or two `=` (61); anything else fails.  Go's
decoder skips `\r`/`\n` itself; the caller here (the PEM decoder) filters
those out before calling, matching the composed behaviour. -/
def base64Decode : List Nat → Option (List Nat)
  | [] => some []
  | c1 :: c2 :: c3 :: c4 :: rest =>
    (b64Index c1).bind fun i1 =>
    (b64Index c2).bind fun i2 =>
    if c3 = 61 then
      if c4 = 61 ∧ rest = [] then some [i1 * 4 + i2 / 16] else none
    else
      (b64Index c3).bind fun i3 =>
      if c4 = 61 then
        if rest = [] then some [i1 * 4 + i2 / 16, i2 % 16 * 16 + i3 / 4] else none
      else
        (b64Index c4).bind fun i4 =>
        (base64Decode rest).map
          (fun tail => (i1 * 4 + i2 / 16) :: (i2 % 16 * 16 + i3 / 4) ::
            (i3 % 4 * 64 + i4) :: tail)
  | _ => none

/-- The `encoding/pem` BEGIN marker after its leading newline: `-----BEGIN `. -/
def pemStartTag : GoStr := ascii "-----BEGIN "

/-- The `encoding/pem` END marker after its leading newline: `-----END `. -/
def pemEndTag : GoStr := ascii "-----END "

/-- The five dashes closing a PEM boundary line (`pemEndOfLine`). -/
def pemEOL : GoStr := ascii "-----"

/-- `bytes.TrimRight(l, " \t")`. -/
def trimRightST (l : GoStr) : GoStr :=
  (l.reverse.dropWhile (fun c => c == 32 || c == 9)).reverse

/-- Split at the first newline: the bytes before it, whether a newline was
found, and the bytes after it. -/
def splitLine : GoStr → GoStr × Bool × GoStr
  | [] => ([], false, [])
  | c :: rest =>
    if c = 10 then ([], true, rest)
    else
      let s := splitLine rest
      (c :: s.1, s.2.1, s.2.2)

/-- `encoding/pem`'s `getLine`: the first line, with a carriage return
directly before the newline removed (only when a newline was found, as in
the source) and trailing spaces and tabs trimmed, plus the remainder after
the newline. -/
def getLine (data : GoStr) : GoStr × GoStr :=
  let s := splitLine data
  let l := if s.2.1 ∧ s.1.getLast? = some 13 then s.1.dropLast else s.1
  (trimRightST l, s.2.2)

/-- `bytes.Index`: position of the first occurrence of `pat`, if any. -/
def findSublist (pat : GoStr) : GoStr → Option Nat
  | [] => if pat = [] then some 0 else none
  | c :: rest =>
    if pat.isPrefixOf (c :: rest) then some 0
    else (findSublist pat rest).map (· + 1)

/-- The `pem.Encode` line breaker: base64 text written in lines of 64
bytes, each line, including the final partial one, followed by a
newline. -/
def wrapLines (l : GoStr) : GoStr :=
  if l = [] then []
  else if l.length ≤ 64 then l ++ [10]
  else l.take 64 ++ 10 :: wrapLines (l.drop 64)
termination_by l.length
decreasing_by
  simp only [List.length_drop]
  omega

/-- `encoding/pem.Block` without the Headers field: `cieps.go` neither
produces nor consumes PEM headers. -/
structure PemBlock where
  type : GoStr
  bytes : GoStr
deriving DecidableEq

/-- `pem.EncodeToMemory` for a block without headers: BEGIN line, base64
body in 64-byte lines, END line.  (The error path of `pem.Encode`, which
makes `EncodeToMemory` return nil, is only reachable for blocks with a
header named `Proc-Type` or containing a colon; it cannot fire here.) -/
def pemEncodeToMemory (b : PemBlock) : GoStr :=
  pemStartTag ++ b.type ++ pemEOL ++ [10] ++
    wrapLines (base64Encode b.bytes) ++
    pemEndTag ++ b.type ++ pemEOL ++ [10]

/-- `pem.Decode`, modelled without header support and without rescanning
for a later BEGIN marker after a malformed candidate block (this model
returns `(none, data)` where the source would retry; `cieps.go` never
relies on the rescan).  On success: the first block and the data past its
END line.  On failure: no block, and the input returned unchanged. -/
def pemDecode (data : GoStr) : Option PemBlock × GoStr :=
  let afterBegin? :=
    if pemStartTag.isPrefixOf data then some (data.drop pemStartTag.length)
    else match findSublist (10 :: pemStartTag) data with
      | some i => some (data.drop (i + pemStartTag.length + 1))
      | none => none
  match afterBegin? with
  | none => (none, data)
  | some afterBegin =>
    let (typeLine, rest1) := getLine afterBegin
    if pemEOL.isSuffixOf typeLine then
      let ty := typeLine.take (typeLine.length - pemEOL.length)
      let endInfo? :=
        if pemEndTag.isPrefixOf rest1 then some (0, pemEndTag.length)
        else match findSublist (10 :: pemEndTag) rest1 with
          | some i => some (i, i + pemEndTag.length + 1)
          | none => none
      match endInfo? with
      | none => (none, data)
      | some (endIndex, endTrailerIndex) =>
        let endTrailer := rest1.drop endTrailerIndex
        let wantLen := ty.length + pemEOL.length
        if endTrailer.length < wantLen then (none, data)
        else
          let restOfEndLine := endTrailer.drop wantLen
          let endTrailer2 := endTrailer.take wantLen
          if ty.isPrefixOf endTrailer2 && pemEOL.isSuffixOf endTrailer2 then
            if (getLine restOfEndLine).1 = [] then
              let base64Data := (rest1.take endIndex).filter
                (fun c => !(c == 32 || c == 9 || c == 13 || c == 10))
              match base64Decode base64Data with
              | none => (none, data)
              | some bytes => (some ⟨ty, bytes⟩, (getLine (rest1.drop endTrailerIndex)).2)
            else (none, data)
          else (none, data)
    else (none, data)

/-- A JSON-representable Go `interface\x7b\x7d` value, as `encoding/json`
produces and consumes them: the dynamic shapes that can appear in the
`map[string]interface\x7b\x7d` request fields and on the wire.  (Go
decodes JSON numbers to `float64`; the numbers in this contract are the
integral `request_version`, so an integer model suffices.) -/
inductive JValue where
  | jnull
  | jbool (b : Bool)
  | jnum (n : Int)
  | jstr (s : GoStr)
  | jarr (elems : List JValue)
  | jobj (fields : List (GoStr × JValue))

/-- The Go dynamic type name of a decoded JSON value, as `fmt`'s `%T`
prints it. -/
def goTypeName : JValue → GoStr
  | .jnull => ascii "<nil>"
  | .jbool _ => ascii "bool"
  | .jnum _ => ascii "float64"
  | .jstr _ => ascii "string"
  | .jarr _ => ascii "[]interface \x7b\x7d"
  | .jobj _ => ascii "map[string]interface \x7b\x7d"

/-- Model of `crypto/x509.Certificate` restricted to the one field
`cieps.go` reads: `Raw`, the complete DER bytes. -/
structure X509Certificate where
  Raw : GoStr
deriving DecidableEq

/-- Model of `crypto/x509.CertificateRequest` restricted to the field that
tracks its identity here: `Raw`, the complete DER bytes. -/
structure X509CertificateRequest where
  Raw : GoStr
deriving DecidableEq

/-- `CIEPSIssuanceMode`, a Go string type. -/
abbrev CIEPSIssuanceMode := GoStr

/-- The `sign` issuance mode constant. -/
def SignCIEPSMode : CIEPSIssuanceMode := ascii "sign"

/-- The `issue` issuance mode constant. -/
def IssueCIEPSMode : CIEPSIssuanceMode := ascii "issue"

/-- The `acme` issuance mode constant. -/
def ACMECIEPSMode : CIEPSIssuanceMode := ascii "acme"

/-- The `ica` issuance mode constant. -/
def ICACIEPSMode : CIEPSIssuanceMode := ascii "ica"

/-- `certutil.URLEntries` is declared in another file of the same package,
not among these sources; its JSON form is carried opaquely. -/
abbrev URLEntries := JValue

/-- `CIEPSIssuanceConfig`: resolved issuer/mount configuration sent with
the request. -/
structure CIEPSIssuanceConfig where
  AIAValues : Option URLEntries
  LeafNotAfterBehavior : GoStr
  MountDefaultTTL : GoStr
  MountMaxTTL : GoStr

/-- `CIEPSVaultParams`: the trusted, Vault-constructed parameter block. -/
structure CIEPSVaultParams where
  PolicyName : GoStr
  Mount : GoStr
  Namespace : GoStr
  IsPerfStandby : Bool
  IsPRSecondary : Bool
  IssuanceMode : CIEPSIssuanceMode
  GeneratedKey : Bool
  IssuerName : GoStr
  IssuerID : GoStr
  IssuerCert : GoStr
  Config : CIEPSIssuanceConfig

/-- `CIEPSRequest`: the outer request object sent by Vault to the CIEPS
service.  The Go `map[string]interface\x7b\x7d` fields are modelled as
association lists with unique keys; map indexing is `List.lookup`. -/
structure CIEPSRequest where
  Version : Int
  UUID : GoStr
  Sync : Bool
  UserRequestKV : List (GoStr × JValue)
  IdentityRequestKV : List (GoStr × JValue)
  ACMERequestKV : List (GoStr × JValue)
  VaultRequestKV : CIEPSVaultParams
  ParsedCSR : Option X509CertificateRequest

/-- `CIEPSResponse`: the expected response object from the CIEPS
service. -/
structure CIEPSResponse where
  UUID : GoStr
  Error : GoStr
  Warnings : List GoStr
  Certificate : GoStr
  ParsedCertificate : Option X509Certificate
  IssuerRef : GoStr
  StoreCert : Bool
  GenerateLease : Bool

/-- The errors `ParseUserCSR` and `MarshalCertificate` can return: one
constructor per `fmt.Errorf` in `cieps.go`, carrying the formatted
arguments. -/
inductive CIEPSError where
  | missingCSRAttribute
  | unexpectedCSRType (typeName : GoStr)
  | emptyCSRAttribute
  | trailingData (count : Nat)
  | pemDecodeFailed
  | parseCertRequestFailed (err : GoStr)
  | noCertificatePresent
  | pemGenerateFailed
deriving DecidableEq

/-- The error text of each `fmt.Errorf` call in `cieps.go`. -/
def CIEPSError.message : CIEPSError → GoStr
  | .missingCSRAttribute => ascii "missing expected 'csr' attribute on the request"
  | .unexpectedCSRType t => ascii "unexpected type of 'csr' attribute: " ++ t
  | .emptyCSRAttribute => ascii "unexpectedly empty 'csr' attribute on the request"
  | .trailingData n =>
    ascii "failed to decode 'csr': " ++ natDec n ++ ascii " bytes of trailing data after PEM block"
  | .pemDecodeFailed => ascii "failed to decode 'csr' PEM block"
  | .parseCertRequestFailed e => ascii "failed to parse certificate request: " ++ e
  | .noCertificatePresent => ascii "no certificate present"
  | .pemGenerateFailed => ascii "failed to generate PEM: no body"

/-- `(*CIEPSRequest).ParseUserCSR`.  `x509.ParseCertificateRequest` is a
standard-library routine outside this subsystem, so it is passed in as a
function returning either a parsed request or an error message.  The Go
method mutates its receiver and returns an error; here it returns the
updated request paired with the optional error. -/
def CIEPSRequest.ParseUserCSR
    (parseCertificateRequest : GoStr → Except GoStr X509CertificateRequest)
    (req : CIEPSRequest) : CIEPSRequest × Option CIEPSError :=
  match req.UserRequestKV.lookup (ascii "csr") with
  | none => (req, some .missingCSRAttribute)
  | some csrValueRaw =>
    match csrValueRaw with
    | .jstr csrValue =>
      if csrValue = [] then (req, some .emptyCSRAttribute)
      else
        let dec := pemDecode csrValue
        if dec.2.length > 0 then (req, some (.trailingData dec.2.length))
        else match dec.1 with
          | none => (req, some .pemDecodeFailed)
          | some block =>
            match parseCertificateRequest block.bytes with
            | .error e => (req, some (.parseCertRequestFailed e))
            | .ok csr => ({ req with ParsedCSR := some csr }, none)
    | other => (req, some (.unexpectedCSRType (goTypeName other)))

/-- `(*CIEPSResponse).MarshalCertificate`: requires a parsed certificate
with non-empty raw bytes and PEM-encodes it as a single CERTIFICATE block
into the `Certificate` field.  Returns the updated response paired with
the optional error. -/
def CIEPSResponse.MarshalCertificate (c : CIEPSResponse) :
    CIEPSResponse × Option CIEPSError :=
  match c.ParsedCertificate with
  | none => (c, some .noCertificatePresent)
  | some cert =>
    if cert.Raw.length = 0 then (c, some .noCertificatePresent)
    else
      let pem := pemEncodeToMemory ⟨ascii "CERTIFICATE", cert.Raw⟩
      if pem.length = 0 then (c, some .pemGenerateFailed)
      else ({ c with Certificate := pem }, none)

/-- JSON object form of `CIEPSIssuanceConfig` per its struct tags
(`aia_values` is a pointer without `omitempty`, so a nil pointer encodes
as JSON null). -/
def encodeCIEPSIssuanceConfig (c : CIEPSIssuanceConfig) : JValue :=
  .jobj [
    (ascii "aia_values", c.AIAValues.getD .jnull),
    (ascii "leaf_not_after_behavior", .jstr c.LeafNotAfterBehavior),
    (ascii "mount_default_ttl", .jstr c.MountDefaultTTL),
    (ascii "mount_max_ttl", .jstr c.MountMaxTTL)]

/-- JSON object form of `CIEPSVaultParams` per its struct tags
(`policy_name` carries `omitempty`). -/
def encodeCIEPSVaultParams (p : CIEPSVaultParams) : JValue :=
  .jobj (
    (if p.PolicyName.isEmpty then [] else [(ascii "policy_name", .jstr p.PolicyName)]) ++
    [(ascii "mount", .jstr p.Mount),
     (ascii "ns", .jstr p.Namespace),
     (ascii "vault_is_performance_standby", .jbool p.IsPerfStandby),
     (ascii "vault_is_performance_secondary", .jbool p.IsPRSecondary),
     (ascii "issuance_mode", .jstr p.IssuanceMode),
     (ascii "vault_generated_private_key", .jbool p.GeneratedKey),
     (ascii "requested_issuer_name", .jstr p.IssuerName),
     (ascii "requested_issuer_id", .jstr p.IssuerID),
     (ascii "requested_issuer_cert", .jstr p.IssuerCert),
     (ascii "requested_issuance_config", encodeCIEPSIssuanceConfig p.Config)])

/-- The JSON wire form of a `CIEPSRequest`, field by field per the struct
tags: `ParsedCSR` carries tag `-` and is never serialized;
`identity_request_key_values` and `acme_request_key_values` carry
`omitempty` and are dropped when empty, as `encoding/json` drops empty
maps under `omitempty`. -/
def encodeCIEPSRequest (req : CIEPSRequest) : List (GoStr × JValue) :=
  [(ascii "request_version", .jnum req.Version),
   (ascii "request_uuid", .jstr req.UUID),
   (ascii "synchronous", .jbool req.Sync),
   (ascii "user_request_key_values", .jobj req.UserRequestKV)] ++
  (if req.IdentityRequestKV.isEmpty then [] else
    [(ascii "identity_request_key_values", .jobj req.IdentityRequestKV)]) ++
  (if req.ACMERequestKV.isEmpty then [] else
    [(ascii "acme_request_key_values", .jobj req.ACMERequestKV)]) ++
  [(ascii "vault_request_values", encodeCIEPSVaultParams req.VaultRequestKV)]

/-- The JSON wire form of a `CIEPSResponse` per its struct tags:
`ParsedCertificate` carries tag `-` and is never serialized; `error` and
`warnings` carry `omitempty`. -/
def encodeCIEPSResponse (c : CIEPSResponse) : List (GoStr × JValue) :=
  [(ascii "request_uuid", .jstr c.UUID)] ++
  (if c.Error.isEmpty then [] else [(ascii "error", .jstr c.Error)]) ++
  (if c.Warnings.isEmpty then [] else
    [(ascii "warnings", .jarr (c.Warnings.map .jstr))]) ++
  [(ascii "certificate", .jstr c.Certificate),
   (ascii "issuer_ref", .jstr c.IssuerRef),
   (ascii "store_certificate", .jbool c.StoreCert),
   (ascii "generate_lease", .jbool c.GenerateLease)]

/-- The wire field names of `CIEPSRequest` per its struct tags. -/
def ciepsRequestFieldNames : List GoStr :=
  [ascii "request_version", ascii "request_uuid", ascii "synchronous",
   ascii "user_request_key_values", ascii "identity_request_key_values",
   ascii "acme_request_key_values", ascii "vault_request_values"]

/-- The wire field names of `CIEPSResponse` per its struct tags: exactly
the fields a decode may accept. -/
def ciepsResponseFieldNames : List GoStr :=
  [ascii "request_uuid", ascii "error", ascii "warnings", ascii "certificate",
   ascii "issuer_ref", ascii "store_certificate", ascii "generate_lease"]

/-- The zero `CIEPSResponse` that JSON decoding starts from. -/
def emptyCIEPSResponse : CIEPSResponse :=
  ⟨[], [], [], [], none, [], false, false⟩

/-- Extract a Go `[]string` from a decoded JSON value. -/
def asStringList (v : JValue) : Option (List GoStr) :=
  match v with
  | .jarr elems => elems.mapM (fun e => match e with | .jstr s => some s | _ => none)
  | _ => none

/-- Modelled from the spec: the JSON decoder for `CIEPSResponse` is not
among these sources; the doc comment on `CIEPSResponse` (cieps.go lines
131-134) and the spec state that Vault disallows unknown fields, failing
the parse when one is sent.  One already-parsed JSON object member is
folded into the response: a known key stores its value (a JSON null
leaves the field at its previous value and a type mismatch fails the
decode, as `encoding/json` behaves); a key outside the schema fails the
decode. -/
def applyCIEPSResponseField (r : CIEPSResponse) (kv : GoStr × JValue) :
    Except GoStr CIEPSResponse :=
  if kv.1 = ascii "request_uuid" then
    match kv.2 with
    | .jstr s => .ok { r with UUID := s }
    | .jnull => .ok r
    | _ => .error (ascii "cannot unmarshal field " ++ kv.1)
  else if kv.1 = ascii "error" then
    match kv.2 with
    | .jstr s => .ok { r with Error := s }
    | .jnull => .ok r
    | _ => .error (ascii "cannot unmarshal field " ++ kv.1)
  else if kv.1 = ascii "warnings" then
    match kv.2 with
    | .jnull => .ok r
    | v =>
      match asStringList v with
      | some ws => .ok { r with Warnings := ws }
      | none => .error (ascii "cannot unmarshal field " ++ kv.1)
  else if kv.1 = ascii "certificate" then
    match kv.2 with
    | .jstr s => .ok { r with Certificate := s }
    | .jnull => .ok r
    | _ => .error (ascii "cannot unmarshal field " ++ kv.1)
  else if kv.1 = ascii "issuer_ref" then
    match kv.2 with
    | .jstr s => .ok { r with IssuerRef := s }
    | .jnull => .ok r
    | _ => .error (ascii "cannot unmarshal field " ++ kv.1)
  else if kv.1 = ascii "store_certificate" then
    match kv.2 with
    | .jbool b => .ok { r with StoreCert := b }
    | .jnull => .ok r
    | _ => .error (ascii "cannot unmarshal field " ++ kv.1)
  else if kv.1 = ascii "generate_lease" then
    match kv.2 with
    | .jbool b => .ok { r with GenerateLease := b }
    | .jnull => .ok r
    | _ => .error (ascii "cannot unmarshal field " ++ kv.1)
  else .error (ascii "unknown field " ++ kv.1)

/-- Modelled from the spec: decoding a `CIEPSResponse` from an
already-parsed JSON object (its member list), disallowing unknown
fields. -/
def decodeCIEPSResponse (fields : List (GoStr × JValue)) : Except GoStr CIEPSResponse :=
  fields.foldlM applyCIEPSResponseField emptyCIEPSResponse

/-- What a Vault node does with a CIEPS response, seen from the
store-and-issue side effect. -/
inductive CIEPSDispatch where
  | storeLocally (resp : CIEPSResponse)
  | forwardToActive (req : CIEPSRequest)

/-- Modelled from the spec: the topology-aware dispatch of the
store-and-issue effect is implemented outside these sources; the doc
comment on `CIEPSVaultParams` (cieps.go lines 47-64) specifies it.  When
`IsPerfStandby = true` and the response carries `StoreCert = true`, the
client request is forwarded to the cluster's active node, which
re-submits the full CIEPS request itself, and the standby's own response
is ignored and never signed or stored; in every other case the node acts
on its own response locally. -/
def dispatchCIEPSOutcome (req : CIEPSRequest) (resp : CIEPSResponse) : CIEPSDispatch :=
  if req.VaultRequestKV.IsPerfStandby && resp.StoreCert then .forwardToActive req
  else .storeLocally resp

/-- A concrete trusted-parameter block for witnesses. -/
def sampleVaultParams : CIEPSVaultParams :=
  ⟨[], ascii "pki", ascii "root", false, false, SignCIEPSMode, false, [], [], [],
    ⟨none, ascii "err", ascii "1h", ascii "24h"⟩⟩

/-- A concrete request around a given user-field map. -/
def sampleRequest (kv : List (GoStr × JValue)) : CIEPSRequest :=
  ⟨1, ascii "11111111-2222-3333-4444-555555555555", true, kv, [], [], sampleVaultParams, none⟩

/-- A stand-in for `x509.ParseCertificateRequest` in witnesses: accepts
any DER bytes. -/
def sampleParser : GoStr → Except GoStr X509CertificateRequest :=
  fun b => .ok ⟨b⟩

/-- A concrete response around a given parsed certificate, with
`StoreCert = true`. -/
def sampleResponse (pc : Option X509Certificate) : CIEPSResponse :=
  ⟨ascii "11111111-2222-3333-4444-555555555555", [], [], [], pc, ascii "default", true, false⟩

/-- A concrete request from a performance-standby node. -/
def standbyRequest : CIEPSRequest :=
  ⟨1, ascii "u", true, [], [], [],
    { sampleVaultParams with IsPerfStandby := true }, none⟩

theorem b64Index_b64Char : ∀ i, i < 64 → b64Index (b64Char i) = some i := by decide

theorem b64Char_ne_61 : ∀ i, i < 64 → b64Char i ≠ 61 := by decide

theorem b64Char_range : ∀ i, i < 64 → 43 ≤ b64Char i ∧ b64Char i ≤ 122 ∧ b64Char i ≠ 45 := by
  decide

theorem base64_roundtrip (bs : List Nat) (h : ∀ b ∈ bs, b < 256) :
    base64Decode (base64Encode bs) = some bs := by
  induction bs using base64Encode.induct with
  | case1 => rfl
  | case2 b1 =>
    have hb1 : b1 < 256 := h b1 (by simp)
    simp only [base64Encode, base64Decode]
    rw [b64Index_b64Char _ (by omega), b64Index_b64Char _ (by omega)]
    simp only [Option.some_bind, if_pos rfl, and_self, ite_true]
    congr 1
    congr 1
    omega
  | case3 b1 b2 =>
    have hb1 : b1 < 256 := h b1 (by simp)
    have hb2 : b2 < 256 := h b2 (by simp)
    simp only [base64Encode, base64Decode]
    rw [b64Index_b64Char _ (by omega), b64Index_b64Char _ (by omega)]
    simp only [Option.some_bind]
    rw [if_neg (b64Char_ne_61 _ (by omega))]
    rw [b64Index_b64Char _ (by omega)]
    simp only [Option.some_bind, if_pos rfl, ite_true]
    congr 1
    congr 1
    · omega
    congr 1
    omega
  | case4 b1 b2 b3 rest ih =>
    have hb1 : b1 < 256 := h b1 (by simp)
    have hb2 : b2 < 256 := h b2 (by simp)
    have hb3 : b3 < 256 := h b3 (by simp)
    have hrest : ∀ b ∈ rest, b < 256 := fun b hb => h b (by simp [hb])
    simp only [base64Encode, base64Decode]
    rw [b64Index_b64Char _ (by omega), b64Index_b64Char _ (by omega)]
    simp only [Option.some_bind]
    rw [if_neg (b64Char_ne_61 _ (by omega))]
    rw [b64Index_b64Char _ (by omega)]
    simp only [Option.some_bind]
    rw [if_neg (b64Char_ne_61 _ (by omega))]
    rw [b64Index_b64Char _ (by omega)]
    simp only [Option.some_bind]
    rw [ih hrest]
    simp only [Option.map_some']
    congr 1
    congr 1
    · omega
    congr 1
    · omega
    congr 1
    omega

theorem splitLine_append (xs z : GoStr) (h : ∀ c ∈ xs, c ≠ 10) :
    splitLine (xs ++ 10 :: z) = (xs, true, z) := by
  induction xs with
  | nil => simp [splitLine]
  | cons c rest ih =>
    have hc : c ≠ 10 := h c (by simp)
    have hrest : ∀ b ∈ rest, b ≠ 10 := fun b hb => h b (by simp [hb])
    simp only [List.cons_append, splitLine, if_neg hc, List.append_eq, ih hrest]

theorem trimRightST_concat (ys : GoStr) (c : Nat) (h32 : c ≠ 32) (h9 : c ≠ 9) :
    trimRightST (ys ++ [c]) = ys ++ [c] := by
  unfold trimRightST
  rw [List.reverse_append]
  simp only [List.reverse_cons, List.reverse_nil, List.nil_append, List.cons_append,
    List.dropWhile_cons]
  rw [if_neg (by simp [h32, h9])]
  simp

theorem getLine_append (xs z : GoStr) (hnl : ∀ c ∈ xs, c ≠ 10)
    (hlast : ∃ ys c, xs = ys ++ [c] ∧ c ≠ 13 ∧ c ≠ 32 ∧ c ≠ 9) :
    getLine (xs ++ 10 :: z) = (xs, z) := by
  obtain ⟨ys, c, rfl, h13, h32, h9⟩ := hlast
  unfold getLine
  rw [splitLine_append _ _ hnl]
  have hgl : (ys ++ [c]).getLast? = some c := List.getLast?_concat ys
  dsimp only
  rw [if_neg (by simp [hgl, h13])]
  simp only [trimRightST_concat ys c h32 h9]

theorem isPrefixOf_append_self (l z : GoStr) : l.isPrefixOf (l ++ z) = true :=
  List.isPrefixOf_iff_prefix.mpr (List.prefix_append l z)

theorem isPrefixOf_cons_false (p c : Nat) (q z : GoStr) (h : c ≠ p) :
    (p :: q).isPrefixOf (c :: z) = false := by
  simp only [List.isPrefixOf, Bool.and_eq_false_iff]
  left
  simp only [beq_eq_false_iff_ne, ne_eq]
  omega

theorem findSublist_append_no_head (p : Nat) (q xs z : GoStr) (h : ∀ c ∈ xs, c ≠ p) :
    findSublist (p :: q) (xs ++ z) =
      (findSublist (p :: q) z).map (· + xs.length) := by
  induction xs with
  | nil => simp [Option.map_id']
  | cons c rest ih =>
    have hc : c ≠ p := h c (by simp)
    have hrest : ∀ b ∈ rest, b ≠ p := fun b hb => h b (by simp [hb])
    have hfalse : ¬((p :: q).isPrefixOf (c :: (rest ++ z)) = true) := by
      rw [isPrefixOf_cons_false p c _ _ hc]
      simp
    simp only [List.cons_append, findSublist, List.append_eq]
    rw [if_neg hfalse, ih hrest, Option.map_map]
    congr 1

theorem findSublist_at_head (pat l : GoStr) (hne : l ≠ []) (h : pat.isPrefixOf l = true) :
    findSublist pat l = some 0 := by
  cases l with
  | nil => exact absurd rfl hne
  | cons c rest => simp only [findSublist, h, if_true]

theorem base64Encode_ne_nil (bs : List Nat) (h : bs ≠ []) : base64Encode bs ≠ [] :=
  match bs with
  | [] => absurd rfl h
  | [_] => by simp [base64Encode]
  | [_, _] => by simp [base64Encode]
  | _ :: _ :: _ :: _ => by simp [base64Encode]

theorem base64Encode_mem (bs : List Nat) (h : ∀ b ∈ bs, b < 256) :
    ∀ c ∈ base64Encode bs, 43 ≤ c ∧ c ≤ 122 ∧ c ≠ 45 := by
  induction bs using base64Encode.induct with
  | case1 => simp [base64Encode]
  | case2 b1 =>
    have hb1 : b1 < 256 := h b1 (by simp)
    intro c hc
    simp only [base64Encode, List.mem_cons, List.not_mem_nil, or_false] at hc
    rcases hc with rfl | rfl | rfl | rfl
    · exact b64Char_range _ (by omega)
    · exact b64Char_range _ (by omega)
    · exact ⟨by omega, by omega, by omega⟩
    · exact ⟨by omega, by omega, by omega⟩
  | case3 b1 b2 =>
    have hb1 : b1 < 256 := h b1 (by simp)
    have hb2 : b2 < 256 := h b2 (by simp)
    intro c hc
    simp only [base64Encode, List.mem_cons, List.not_mem_nil, or_false] at hc
    rcases hc with rfl | rfl | rfl | rfl
    · exact b64Char_range _ (by omega)
    · exact b64Char_range _ (by omega)
    · exact b64Char_range _ (by omega)
    · exact ⟨by omega, by omega, by omega⟩
  | case4 b1 b2 b3 rest ih =>
    have hb1 : b1 < 256 := h b1 (by simp)
    have hb2 : b2 < 256 := h b2 (by simp)
    have hb3 : b3 < 256 := h b3 (by simp)
    have hrest : ∀ b ∈ rest, b < 256 := fun b hb => h b (by simp [hb])
    intro c hc
    simp only [base64Encode, List.mem_cons] at hc
    rcases hc with rfl | rfl | rfl | rfl | hmem
    · exact b64Char_range _ (by omega)
    · exact b64Char_range _ (by omega)
    · exact b64Char_range _ (by omega)
    · exact b64Char_range _ (by omega)
    · exact ih hrest c hmem

theorem wrapLines_ne_nil (l : GoStr) (h : l ≠ []) : wrapLines l ≠ [] := by
  rw [wrapLines, if_neg h]
  split
  · simp
  · simp

theorem wrapLines_head (c : Nat) (l : GoStr) : ∃ z, wrapLines (c :: l) = c :: z := by
  rw [wrapLines, if_neg (by simp)]
  split
  · exact ⟨l ++ [10], by simp⟩
  · exact ⟨l.take 63 ++ 10 :: wrapLines ((c :: l).drop 64), by
      simp [List.take_succ_cons]⟩

theorem wrapLines_getLast (l : GoStr) (h : l ≠ []) : (wrapLines l).getLast? = some 10 := by
  induction l using wrapLines.induct with
  | case1 => exact absurd rfl h
  | case2 l h1 h2 => rw [wrapLines, if_neg h1, if_pos h2, List.getLast?_concat]
  | case3 l h1 h2 ih =>
    rw [wrapLines, if_neg h1, if_neg h2]
    have hd : l.drop 64 ≠ [] := by
      intro hcon
      have := congrArg List.length hcon
      simp only [List.length_drop, List.length_nil] at this
      omega
    have hwd : wrapLines (l.drop 64) ≠ [] := wrapLines_ne_nil _ hd
    rw [List.getLast?_append]
    rw [show (10 :: wrapLines (l.drop 64)) = [10] ++ wrapLines (l.drop 64) from rfl]
    rw [List.getLast?_append, ih hd]
    rfl

theorem wrapLines_filter (l : GoStr) (h : ∀ c ∈ l, 43 ≤ c) :
    (wrapLines l).filter (fun c => !(c == 32 || c == 9 || c == 13 || c == 10)) = l := by
  induction l using wrapLines.induct with
  | case1 => simp [wrapLines]
  | case2 l h1 h2 =>
    rw [wrapLines, if_neg h1, if_pos h2, List.filter_append]
    have hl : List.filter (fun c => !(c == 32 || c == 9 || c == 13 || c == 10)) l = l :=
      List.filter_eq_self.mpr (fun a ha => by
        have := h a ha
        simp only [Bool.not_eq_eq_eq_not, Bool.not_true, Bool.or_eq_false_iff,
          beq_eq_false_iff_ne, ne_eq]
        omega)
    rw [hl]
    simp
  | case3 l h1 h2 ih =>
    rw [wrapLines, if_neg h1, if_neg h2, List.filter_append]
    have htake : List.filter (fun c => !(c == 32 || c == 9 || c == 13 || c == 10)) (l.take 64) =
        l.take 64 :=
      List.filter_eq_self.mpr (fun a ha => by
        have := h a (List.take_subset 64 l ha)
        simp only [Bool.not_eq_eq_eq_not, Bool.not_true, Bool.or_eq_false_iff,
          beq_eq_false_iff_ne, ne_eq]
        omega)
    have hdrop : ∀ c ∈ l.drop 64, 43 ≤ c := fun c hc => h c (List.drop_subset 64 l hc)
    rw [htake, List.filter_cons_of_neg (by simp), ih hdrop]
    exact List.take_append_drop 64 l

theorem findSublist_wrapLines (B z : GoStr) (hB : B ≠ [])
    (halpha : ∀ c ∈ B, 43 ≤ c ∧ c ≤ 122 ∧ c ≠ 45) :
    findSublist (10 :: pemEndTag) (wrapLines B ++ (pemEndTag ++ z)) =
      some ((wrapLines B).length - 1) := by
  induction B using wrapLines.induct with
  | case1 => exact absurd rfl hB
  | case2 B h1 h2 =>
    rw [wrapLines, if_neg h1, if_pos h2]
    have hno10 : ∀ c ∈ B, c ≠ 10 := fun c hc => by have := halpha c hc; omega
    rw [List.append_assoc, List.singleton_append]
    rw [findSublist_append_no_head 10 pemEndTag B _ hno10]
    rw [findSublist_at_head _ _ (by simp) (by
      simp only [List.isPrefixOf, beq_self_eq_true, Bool.true_and]
      exact isPrefixOf_append_self pemEndTag z)]
    simp only [Option.map_some']
    congr 1
    simp
  | case3 B h1 h2 ih =>
    rw [wrapLines, if_neg h1, if_neg h2]
    have hlen : 64 < B.length := by
      rcases Nat.lt_or_ge 64 B.length with h | h
      · exact h
      · exact absurd (by omega) h2
    have hno10take : ∀ c ∈ B.take 64, c ≠ 10 := fun c hc => by
      have := halpha c (List.take_subset 64 B hc); omega
    have hdropne : B.drop 64 ≠ [] := by
      intro hcon
      have := congrArg List.length hcon
      simp only [List.length_drop, List.length_nil] at this
      omega
    have halphadrop : ∀ c ∈ B.drop 64, 43 ≤ c ∧ c ≤ 122 ∧ c ≠ 45 :=
      fun c hc => halpha c (List.drop_subset 64 B hc)
    obtain ⟨c0, dtl, hdrop⟩ : ∃ c0 dtl, B.drop 64 = c0 :: dtl := by
      cases hd : B.drop 64 with
      | nil => exact absurd hd hdropne
      | cons a b => exact ⟨a, b, rfl⟩
    have hc0 : c0 ≠ 45 := by
      have := halphadrop c0 (by rw [hdrop]; simp)
      exact this.2.2
    obtain ⟨wtl, hwd⟩ := wrapLines_head c0 dtl
    have hWdcons : wrapLines (B.drop 64) = c0 :: wtl := by rw [hdrop, hwd]
    have hWdne : wrapLines (B.drop 64) ≠ [] := by rw [hWdcons]; simp
    have hWdpos : 0 < (wrapLines (B.drop 64)).length := List.length_pos.mpr hWdne
    rw [List.append_assoc, List.cons_append]
    rw [findSublist_append_no_head 10 pemEndTag _ _ hno10take]
    have hpem45 : pemEndTag = 45 :: ascii "----END " := by decide
    have hnotpref : ¬((10 :: pemEndTag).isPrefixOf
        (10 :: (wrapLines (B.drop 64) ++ (pemEndTag ++ z))) = true) := by
      simp only [List.isPrefixOf, beq_self_eq_true, Bool.true_and]
      rw [hWdcons, List.cons_append, hpem45]
      rw [isPrefixOf_cons_false 45 c0 _ _ hc0]
      simp
    have hinner : findSublist (10 :: pemEndTag)
        (10 :: (wrapLines (B.drop 64) ++ (pemEndTag ++ z))) =
        some ((wrapLines (B.drop 64)).length - 1 + 1) := by
      rw [show (10 :: (wrapLines (B.drop 64) ++ (pemEndTag ++ z))) =
        10 :: (wrapLines (B.drop 64) ++ (pemEndTag ++ z)) from rfl]
      simp only [findSublist]
      rw [if_neg hnotpref, ih hdropne halphadrop]
      simp
    rw [hinner]
    simp only [Option.map_some']
    congr 1
    have htl : (B.take 64).length = 64 := by
      rw [List.length_take]
      omega
    simp only [List.length_append, List.length_cons, htl]
    omega

theorem pem_roundtrip_certificate (raw : GoStr) (h1 : raw ≠ []) (h2 : ∀ b ∈ raw, b < 256) :
    pemDecode (pemEncodeToMemory ⟨ascii "CERTIFICATE", raw⟩) =
      (some ⟨ascii "CERTIFICATE", raw⟩, []) := by
  have hBne : base64Encode raw ≠ [] := base64Encode_ne_nil raw h1
  have halpha : ∀ c ∈ base64Encode raw, 43 ≤ c ∧ c ≤ 122 ∧ c ≠ 45 := base64Encode_mem raw h2
  have hWne : wrapLines (base64Encode raw) ≠ [] := wrapLines_ne_nil _ hBne
  have hWpos : 0 < (wrapLines (base64Encode raw)).length := List.length_pos.mpr hWne
  have hdata : pemEncodeToMemory ⟨ascii "CERTIFICATE", raw⟩ =
      pemStartTag ++ ((ascii "CERTIFICATE" ++ pemEOL) ++ 10 ::
        (wrapLines (base64Encode raw) ++ (pemEndTag ++
          (ascii "CERTIFICATE" ++ (pemEOL ++ [10]))))) := by
    simp [pemEncodeToMemory, List.append_assoc]
  rw [hdata]
  simp only [pemDecode]
  rw [isPrefixOf_append_self]
  simp only [if_pos]
  rw [List.drop_left]
  have hgl : getLine ((ascii "CERTIFICATE" ++ pemEOL) ++ 10 ::
      (wrapLines (base64Encode raw) ++ (pemEndTag ++ (ascii "CERTIFICATE" ++ (pemEOL ++ [10]))))) =
      (ascii "CERTIFICATE" ++ pemEOL,
        wrapLines (base64Encode raw) ++ (pemEndTag ++ (ascii "CERTIFICATE" ++ (pemEOL ++ [10])))) :=
    getLine_append _ _ (by decide)
      ⟨ascii "CERTIFICATE----", 45, by decide, by decide, by decide, by decide⟩
  rw [hgl]
  dsimp only
  have hsuf : pemEOL.isSuffixOf (ascii "CERTIFICATE" ++ pemEOL) = true := by decide
  rw [hsuf]
  simp only [if_pos]
  have hty : List.take ((ascii "CERTIFICATE" ++ pemEOL).length - pemEOL.length)
      (ascii "CERTIFICATE" ++ pemEOL) = ascii "CERTIFICATE" := by decide
  rw [hty]
  obtain ⟨cb, btl, hBcons⟩ : ∃ cb btl, base64Encode raw = cb :: btl := by
    cases hb : base64Encode raw with
    | nil => exact absurd hb hBne
    | cons a b => exact ⟨a, b, rfl⟩
  have hcb45 : cb ≠ 45 := by
    have := halpha cb (by rw [hBcons]; simp)
    exact this.2.2
  obtain ⟨wtl, hwtl⟩ := wrapLines_head cb btl
  have hpem45 : pemEndTag = 45 :: ascii "----END " := by decide
  have hprefend : pemEndTag.isPrefixOf (wrapLines (base64Encode raw) ++
      (pemEndTag ++ (ascii "CERTIFICATE" ++ (pemEOL ++ [10])))) = false := by
    rw [hBcons, hwtl, List.cons_append, hpem45]
    exact isPrefixOf_cons_false 45 cb _ _ hcb45
  rw [hprefend]
  simp only [Bool.false_eq_true, if_false]
  rw [findSublist_wrapLines (base64Encode raw) _ hBne halpha]
  dsimp only
  have hlen9 : List.length pemEndTag = 9 := by decide
  have heq : List.length (wrapLines (base64Encode raw)) - 1 + List.length pemEndTag + 1 =
      List.length (wrapLines (base64Encode raw) ++ pemEndTag) := by
    simp only [List.length_append, hlen9]
    omega
  have hTI : List.drop (List.length (wrapLines (base64Encode raw)) - 1 + List.length pemEndTag + 1)
      (wrapLines (base64Encode raw) ++ (pemEndTag ++ (ascii "CERTIFICATE" ++ (pemEOL ++ [10])))) =
      ascii "CERTIFICATE" ++ (pemEOL ++ [10]) := by
    rw [heq, show wrapLines (base64Encode raw) ++ (pemEndTag ++ (ascii "CERTIFICATE" ++ (pemEOL ++ [10]))) =
      (wrapLines (base64Encode raw) ++ pemEndTag) ++ (ascii "CERTIFICATE" ++ (pemEOL ++ [10])) from
      (List.append_assoc _ _ _).symm]
    exact List.drop_left _ _
  rw [hTI]
  have hlt : ¬((ascii "CERTIFICATE" ++ (pemEOL ++ [10])).length <
      List.length (ascii "CERTIFICATE") + List.length pemEOL) := by decide
  rw [if_neg hlt]
  have htk : List.take (List.length (ascii "CERTIFICATE") + List.length pemEOL)
      (ascii "CERTIFICATE" ++ (pemEOL ++ [10])) = ascii "CERTIFICATE" ++ pemEOL := by decide
  rw [htk]
  have hcond : (List.isPrefixOf (ascii "CERTIFICATE") (ascii "CERTIFICATE" ++ pemEOL) &&
      List.isSuffixOf pemEOL (ascii "CERTIFICATE" ++ pemEOL)) = true := by decide
  rw [hcond]
  simp only [if_pos]
  have hglro : (getLine (List.drop (List.length (ascii "CERTIFICATE") + List.length pemEOL)
      (ascii "CERTIFICATE" ++ (pemEOL ++ [10])))).1 = [] := by decide
  rw [if_pos hglro]
  have htkW : List.take (List.length (wrapLines (base64Encode raw)) - 1)
      (wrapLines (base64Encode raw) ++ (pemEndTag ++ (ascii "CERTIFICATE" ++ (pemEOL ++ [10])))) =
      (wrapLines (base64Encode raw)).dropLast := by
    rw [List.take_append_of_le_length (by omega), List.dropLast_eq_take]
  rw [htkW]
  have hW10 : (wrapLines (base64Encode raw)).getLast hWne = 10 := by
    have := wrapLines_getLast (base64Encode raw) hBne
    rw [List.getLast?_eq_getLast _ hWne] at this
    exact Option.some_injective _ this
  have hWsplit : (wrapLines (base64Encode raw)).dropLast ++ [10] = wrapLines (base64Encode raw) := by
    conv_rhs => rw [← List.dropLast_append_getLast hWne]
    rw [hW10]
  have hfil : (wrapLines (base64Encode raw)).dropLast.filter
      (fun c => !(c == 32 || c == 9 || c == 13 || c == 10)) = base64Encode raw := by
    have hfW := wrapLines_filter (base64Encode raw) (fun c hc => (halpha c hc).1)
    rw [← hWsplit, List.filter_append] at hfW
    simpa using hfW
  rw [hfil, base64_roundtrip raw h2]
  dsimp only
  have hfin : (getLine (ascii "CERTIFICATE" ++ (pemEOL ++ [10]))).2 = [] := by decide
  rw [hfin]

/-- C9: for every issuance attempt on a node with `IsPerfStandby = true`
whose response has `StoreCert = true`, the standby never signs or stores
itself: the store-and-issue effect is dispatched as a forward of the full
original request (same request UUID) to the active node, which re-submits
it to the CIEPS service, and the standby's own response is discarded,
never used via a local store. -/
theorem standby_storecert_forwards (req : CIEPSRequest) (resp : CIEPSResponse)
    (hstandby : req.VaultRequestKV.IsPerfStandby = true)
    (hstore : resp.StoreCert = true) :
    dispatchCIEPSOutcome req resp = .forwardToActive req ∧
    (∀ r', dispatchCIEPSOutcome req resp ≠ .storeLocally r') ∧
    (∀ fwd, dispatchCIEPSOutcome req resp = .forwardToActive fwd → fwd.UUID = req.UUID) := by
  unfold dispatchCIEPSOutcome
  rw [hstandby, hstore]
  refine ⟨rfl, fun r' h => by simp at h, fun fwd h => ?_⟩
  simp only [Bool.and_self, if_pos] at h
  cases h
  rfl

/-- C10: `MarshalCertificate` mutates only the `Certificate` field; every
other field of the response is unchanged whether it succeeds or fails,
and when it returns an error the whole response is unmodified. -/
theorem marshalCertificate_frame (c : CIEPSResponse) :
    c.MarshalCertificate.1.UUID = c.UUID ∧
    c.MarshalCertificate.1.Error = c.Error ∧
    c.MarshalCertificate.1.Warnings = c.Warnings ∧
    c.MarshalCertificate.1.ParsedCertificate = c.ParsedCertificate ∧
    c.MarshalCertificate.1.IssuerRef = c.IssuerRef ∧
    c.MarshalCertificate.1.StoreCert = c.StoreCert ∧
    c.MarshalCertificate.1.GenerateLease = c.GenerateLease ∧
    (c.MarshalCertificate.2 ≠ none → c.MarshalCertificate.1 = c) := by
  unfold CIEPSResponse.MarshalCertificate
  split
  · simp
  split
  · simp
  dsimp only
  split
  · simp
  · simp

/-- C8: `ParseUserCSR` mutates only the `ParsedCSR` field: `Version`,
`UUID`, `Sync`, `UserRequestKV`, `IdentityRequestKV`, `ACMERequestKV` and
`VaultRequestKV` are unchanged whether it succeeds or fails, and when it
returns an error the request is entirely unmodified. -/
theorem parseUserCSR_frame
    (p : GoStr → Except GoStr X509CertificateRequest) (req : CIEPSRequest) :
    (req.ParseUserCSR p).1.Version = req.Version ∧
    (req.ParseUserCSR p).1.UUID = req.UUID ∧
    (req.ParseUserCSR p).1.Sync = req.Sync ∧
    (req.ParseUserCSR p).1.UserRequestKV = req.UserRequestKV ∧
    (req.ParseUserCSR p).1.IdentityRequestKV = req.IdentityRequestKV ∧
    (req.ParseUserCSR p).1.ACMERequestKV = req.ACMERequestKV ∧
    (req.ParseUserCSR p).1.VaultRequestKV = req.VaultRequestKV ∧
    ((req.ParseUserCSR p).2 ≠ none → (req.ParseUserCSR p).1 = req) := by
  unfold CIEPSRequest.ParseUserCSR
  repeat' split
  all_goals try dsimp only
  all_goals repeat' split
  all_goals simp

/-- C2: for every `CIEPSRequest` whose `UserRequestKV` misses the `csr`
key, or holds a `csr` of non-string dynamic type, or holds an empty
string `csr`, `ParseUserCSR` fails without modifying the request and
with a distinct, field-specific error (distinct both as error values and
as rendered error messages) for each of the three cases; the value is
never silently defaulted. -/
theorem parseUserCSR_rejects_bad_csr
    (p : GoStr → Except GoStr X509CertificateRequest) (req : CIEPSRequest) :
    (req.UserRequestKV.lookup (ascii "csr") = none →
      req.ParseUserCSR p = (req, some .missingCSRAttribute)) ∧
    (∀ v, req.UserRequestKV.lookup (ascii "csr") = some v → (∀ s, v ≠ .jstr s) →
      req.ParseUserCSR p = (req, some (.unexpectedCSRType (goTypeName v)))) ∧
    (req.UserRequestKV.lookup (ascii "csr") = some (.jstr []) →
      req.ParseUserCSR p = (req, some .emptyCSRAttribute)) ∧
    (∀ t, CIEPSError.missingCSRAttribute ≠ .unexpectedCSRType t) ∧
    (CIEPSError.missingCSRAttribute ≠ .emptyCSRAttribute) ∧
    (∀ t, CIEPSError.emptyCSRAttribute ≠ .unexpectedCSRType t) ∧
    (∀ t, CIEPSError.missingCSRAttribute.message ≠ (CIEPSError.unexpectedCSRType t).message) ∧
    (CIEPSError.missingCSRAttribute.message ≠ CIEPSError.emptyCSRAttribute.message) ∧
    (∀ t, CIEPSError.emptyCSRAttribute.message ≠ (CIEPSError.unexpectedCSRType t).message) := by
  refine ⟨?_, ?_, ?_, ?_, ?_, ?_, ?_, ?_, ?_⟩
  · intro hl
    simp only [CIEPSRequest.ParseUserCSR, hl]
  · intro v hl hne
    cases v with
    | jstr s => exact absurd rfl (hne s)
    | jnull => simp only [CIEPSRequest.ParseUserCSR, hl]
    | jbool b => simp only [CIEPSRequest.ParseUserCSR, hl]
    | jnum n => simp only [CIEPSRequest.ParseUserCSR, hl]
    | jarr elems => simp only [CIEPSRequest.ParseUserCSR, hl]
    | jobj fields => simp only [CIEPSRequest.ParseUserCSR, hl]
  · intro hl
    simp only [CIEPSRequest.ParseUserCSR, hl]
    rfl
  · exact fun t h => CIEPSError.noConfusion h
  · exact fun h => CIEPSError.noConfusion h
  · exact fun t h => CIEPSError.noConfusion h
  · intro t h
    rw [show CIEPSError.missingCSRAttribute.message =
      109 :: ascii "issing expected 'csr' attribute on the request" from by decide] at h
    rw [show (CIEPSError.unexpectedCSRType t).message =
      117 :: (ascii "nexpected type of 'csr' attribute: " ++ t) from by
        show ascii "unexpected type of 'csr' attribute: " ++ t = _
        rw [show ascii "unexpected type of 'csr' attribute: " =
          117 :: ascii "nexpected type of 'csr' attribute: " from by decide]
        rfl] at h
    simp at h
  · intro h
    rw [show CIEPSError.missingCSRAttribute.message =
      109 :: ascii "issing expected 'csr' attribute on the request" from by decide] at h
    rw [show CIEPSError.emptyCSRAttribute.message =
      117 :: ascii "nexpectedly empty 'csr' attribute on the request" from by decide] at h
    simp at h
  · intro t h
    rw [show CIEPSError.emptyCSRAttribute.message =
      ascii "unexpected" ++ (108 :: ascii "y empty 'csr' attribute on the request") from by
        decide] at h
    rw [show (CIEPSError.unexpectedCSRType t).message =
      ascii "unexpected" ++ (32 :: (ascii "type of 'csr' attribute: " ++ t)) from by
        show ascii "unexpected type of 'csr' attribute: " ++ t = _
        rw [show ascii "unexpected type of 'csr' attribute: " =
          ascii "unexpected" ++ (32 :: ascii "type of 'csr' attribute: ") from by decide]
        simp] at h
    have := List.append_cancel_left h
    simp at this

/-- C3: for every non-empty string `csr` value, `ParseUserCSR` decodes
one PEM block and enforces that it is the only content: trailing bytes
after the block fail with the error naming the trailing byte count, an
absent or malformed block fails with an error, and success requires that
decoding yielded exactly one block with no trailing bytes. -/
theorem parseUserCSR_pem_block_discipline
    (p : GoStr → Except GoStr X509CertificateRequest) (req : CIEPSRequest) (s : GoStr)
    (hlookup : req.UserRequestKV.lookup (ascii "csr") = some (.jstr s))
    (hne : s ≠ []) :
    (∀ b rest, pemDecode s = (b, rest) → rest ≠ [] →
      req.ParseUserCSR p = (req, some (.trailingData rest.length))) ∧
    ((pemDecode s).1 = none → ∃ e, (req.ParseUserCSR p).2 = some e) ∧
    ((req.ParseUserCSR p).2 = none → ∃ block, pemDecode s = (some block, [])) := by
  refine ⟨?_, ?_, ?_⟩
  · intro b rest hdec hrest
    simp only [CIEPSRequest.ParseUserCSR, hlookup, if_neg hne, hdec]
    rw [if_pos (by simpa using List.length_pos.mpr hrest)]
  · rcases hdec : pemDecode s with ⟨b, rest⟩
    intro h1
    simp only at h1
    subst h1
    by_cases hrest : rest = []
    · subst hrest
      simp only [CIEPSRequest.ParseUserCSR, hlookup, if_neg hne, hdec]
      exact ⟨CIEPSError.pemDecodeFailed, rfl⟩
    · simp only [CIEPSRequest.ParseUserCSR, hlookup, if_neg hne, hdec]
      rw [if_pos (by simpa using List.length_pos.mpr hrest)]
      exact ⟨CIEPSError.trailingData rest.length, rfl⟩
  · rcases hdec : pemDecode s with ⟨b, rest⟩
    intro hok
    by_cases hrest : rest = []
    · subst hrest
      cases b with
      | none =>
        simp only [CIEPSRequest.ParseUserCSR, hlookup, if_neg hne, hdec] at hok
        simp at hok
      | some block => exact ⟨block, rfl⟩
    · simp only [CIEPSRequest.ParseUserCSR, hlookup, if_neg hne, hdec] at hok
      rw [if_pos (by simpa using List.length_pos.mpr hrest)] at hok
      simp at hok

/-- C4: the success path: a present, non-empty string `csr` holding a
single well-formed PEM block with no trailing bytes whose DER payload
parses as a certificate request makes `ParseUserCSR` succeed and store
exactly the parsed object in `ParsedCSR`. -/
theorem parseUserCSR_success
    (p : GoStr → Except GoStr X509CertificateRequest) (req : CIEPSRequest)
    (s : GoStr) (block : PemBlock) (csr : X509CertificateRequest)
    (hlookup : req.UserRequestKV.lookup (ascii "csr") = some (.jstr s))
    (hne : s ≠ [])
    (hdec : pemDecode s = (some block, []))
    (hparse : p block.bytes = .ok csr) :
    req.ParseUserCSR p = ({ req with ParsedCSR := some csr }, none) := by
  simp [CIEPSRequest.ParseUserCSR, hlookup, hne, hdec, hparse]

theorem pemEncodeToMemory_length_pos (b : PemBlock) : 0 < (pemEncodeToMemory b).length := by
  have h11 : pemStartTag.length = 11 := by decide
  simp only [pemEncodeToMemory, List.length_append, h11]
  omega

theorem marshalCertificate_success (c : CIEPSResponse) (cert : X509Certificate)
    (hp : c.ParsedCertificate = some cert) (hraw : cert.Raw ≠ []) :
    c.MarshalCertificate =
      ({ c with Certificate := pemEncodeToMemory ⟨ascii "CERTIFICATE", cert.Raw⟩ }, none) := by
  have hlen : ¬cert.Raw.length = 0 := by
    have := List.length_pos.mpr hraw
    omega
  have hpem : ¬(pemEncodeToMemory ⟨ascii "CERTIFICATE", cert.Raw⟩).length = 0 := by
    have := pemEncodeToMemory_length_pos ⟨ascii "CERTIFICATE", cert.Raw⟩
    omega
  simp only [CIEPSResponse.MarshalCertificate, hp]
  rw [if_neg hlen]
  rw [if_neg hpem]

/-- C5: `MarshalCertificate` returns an error exactly when no parsed
certificate is present (`ParsedCertificate` is nil) or its raw bytes are
empty; otherwise it succeeds and sets `Certificate` to the single
CERTIFICATE PEM block built from the parsed certificate's raw bytes,
whose body decodes back to exactly those bytes. -/
theorem marshalCertificate_spec (c : CIEPSResponse) :
    (c.MarshalCertificate.2.isSome = true ↔
      (c.ParsedCertificate = none ∨ ∃ cert, c.ParsedCertificate = some cert ∧ cert.Raw = [])) ∧
    (∀ cert, c.ParsedCertificate = some cert → cert.Raw ≠ [] →
      c.MarshalCertificate =
        ({ c with Certificate := pemEncodeToMemory ⟨ascii "CERTIFICATE", cert.Raw⟩ }, none)) ∧
    (∀ cert, c.ParsedCertificate = some cert → cert.Raw ≠ [] → (∀ b ∈ cert.Raw, b < 256) →
      pemDecode c.MarshalCertificate.1.Certificate =
        (some ⟨ascii "CERTIFICATE", cert.Raw⟩, [])) := by
  refine ⟨?_, fun cert hp hraw => marshalCertificate_success c cert hp hraw, ?_⟩
  · cases hp : c.ParsedCertificate with
    | none =>
      constructor
      · intro _
        exact Or.inl rfl
      · intro _
        simp [CIEPSResponse.MarshalCertificate, hp]
    | some cert =>
      by_cases hraw : cert.Raw = []
      · constructor
        · intro _
          exact Or.inr ⟨cert, rfl, hraw⟩
        · intro _
          simp [CIEPSResponse.MarshalCertificate, hp, hraw]
      · rw [marshalCertificate_success c cert hp hraw]
        constructor
        · intro hcon
          simp at hcon
        · rintro (hnone | ⟨cert', hsome', hraw'⟩)
          · exact Option.noConfusion hnone
          · have := Option.some_injective _ hsome'
            subst this
            exact absurd hraw' hraw
  · intro cert hp hraw hbytes
    rw [marshalCertificate_success c cert hp hraw]
    exact pem_roundtrip_certificate cert.Raw hraw hbytes

/-- C6: round-trip law: whenever `ParsedCertificate` holds non-empty raw
bytes, `MarshalCertificate` succeeds and PEM-decoding the produced
`Certificate` string yields exactly one block, of type CERTIFICATE, with
no trailing bytes, whose bytes are identical to the parsed certificate's
raw bytes. -/
theorem marshalCertificate_roundtrip (c : CIEPSResponse) (cert : X509Certificate)
    (hp : c.ParsedCertificate = some cert) (hraw : cert.Raw ≠ [])
    (hbytes : ∀ b ∈ cert.Raw, b < 256) :
    c.MarshalCertificate.2 = none ∧
    pemDecode c.MarshalCertificate.1.Certificate =
      (some ⟨ascii "CERTIFICATE", cert.Raw⟩, []) := by
  rw [marshalCertificate_success c cert hp hraw]
  exact ⟨rfl, pem_roundtrip_certificate cert.Raw hraw hbytes⟩

theorem applyCIEPSResponseField_unknown (r : CIEPSResponse) (kv : GoStr × JValue)
    (h : kv.1 ∉ ciepsResponseFieldNames) :
    applyCIEPSResponseField r kv = .error (ascii "unknown field " ++ kv.1) := by
  simp only [ciepsResponseFieldNames, List.mem_cons, List.not_mem_nil, or_false,
    not_or] at h
  obtain ⟨h1, h2, h3, h4, h5, h6, h7⟩ := h
  simp only [applyCIEPSResponseField, if_neg h1, if_neg h2, if_neg h3, if_neg h4,
    if_neg h5, if_neg h6, if_neg h7]

theorem decodeCIEPSResponse_aux_unknown (fields : List (GoStr × JValue)) :
    ∀ init : CIEPSResponse,
      (∃ kv ∈ fields, kv.1 ∉ ciepsResponseFieldNames) →
      ∃ e, List.foldlM applyCIEPSResponseField init fields = .error e := by
  induction fields with
  | nil =>
    rintro init ⟨kv, hmem, _⟩
    exact absurd hmem (List.not_mem_nil kv)
  | cons kv0 rest ih =>
    rintro init ⟨kv, hmem, hunk⟩
    rw [List.foldlM_cons]
    cases happ : applyCIEPSResponseField init kv0 with
    | error e => exact ⟨e, rfl⟩
    | ok r1 =>
      rcases List.mem_cons.mp hmem with rfl | hmem2
      · rw [applyCIEPSResponseField_unknown init kv hunk] at happ
        exact Except.noConfusion happ
      · obtain ⟨e, he⟩ := ih r1 ⟨kv, hmem2, hunk⟩
        exact ⟨e, he⟩

/-- C1: for every `CIEPSResponse` decoded from the wire, a member whose
key lies outside the response schema (`request_uuid`, `error`,
`warnings`, `certificate`, `issuer_ref`, `store_certificate`,
`generate_lease`) makes the decode fail rather than being ignored. -/
theorem decodeCIEPSResponse_rejects_unknown_field
    (fields : List (GoStr × JValue)) (k : GoStr) (v : JValue)
    (hmem : (k, v) ∈ fields) (hunknown : k ∉ ciepsResponseFieldNames) :
    ∃ e, decodeCIEPSResponse fields = .error e :=
  decodeCIEPSResponse_aux_unknown fields emptyCIEPSResponse ⟨(k, v), hmem, hunknown⟩

theorem applyCIEPSResponseField_parsedCertificate (r : CIEPSResponse)
    (kv : GoStr × JValue) (r' : CIEPSResponse)
    (h : applyCIEPSResponseField r kv = .ok r') :
    r'.ParsedCertificate = r.ParsedCertificate := by
  unfold applyCIEPSResponseField at h
  split_ifs at h <;> repeat' split at h
  all_goals first
  | exact Except.noConfusion h
  | (cases h; rfl)

theorem decodeCIEPSResponse_aux_parsed (fields : List (GoStr × JValue)) :
    ∀ init r : CIEPSResponse,
      List.foldlM applyCIEPSResponseField init fields = .ok r →
      r.ParsedCertificate = init.ParsedCertificate := by
  induction fields with
  | nil =>
    intro init r h
    rw [List.foldlM_nil] at h
    cases h
    rfl
  | cons kv0 rest ih =>
    intro init r h
    rw [List.foldlM_cons] at h
    cases happ : applyCIEPSResponseField init kv0 with
    | error e =>
      rw [happ] at h
      exact Except.noConfusion h
    | ok r1 =>
      rw [happ] at h
      rw [ih r1 r h, applyCIEPSResponseField_parsedCertificate init kv0 r1 happ]

/-- C7: the wire forms never carry the parsed objects: serializing a
request or a response is independent of `ParsedCSR` and
`ParsedCertificate` and emits only the declared wire field names (among
which no parsed-object field exists), and decoding a response never
populates `ParsedCertificate`. -/
theorem parsed_fields_never_on_wire :
    (∀ (req : CIEPSRequest) (pcsr : Option X509CertificateRequest),
      encodeCIEPSRequest { req with ParsedCSR := pcsr } = encodeCIEPSRequest req) ∧
    (∀ req : CIEPSRequest, ∀ k ∈ (encodeCIEPSRequest req).map Prod.fst,
      k ∈ ciepsRequestFieldNames) ∧
    (∀ (c : CIEPSResponse) (pcert : Option X509Certificate),
      encodeCIEPSResponse { c with ParsedCertificate := pcert } = encodeCIEPSResponse c) ∧
    (∀ c : CIEPSResponse, ∀ k ∈ (encodeCIEPSResponse c).map Prod.fst,
      k ∈ ciepsResponseFieldNames) ∧
    (∀ (fields : List (GoStr × JValue)) (r : CIEPSResponse),
      decodeCIEPSResponse fields = .ok r → r.ParsedCertificate = none) := by
  refine ⟨fun req pcsr => rfl, ?_, fun c pcert => rfl, ?_, ?_⟩
  · intro req k hk
    by_cases h1 : req.IdentityRequestKV.isEmpty <;>
      by_cases h2 : req.ACMERequestKV.isEmpty <;>
      simp [encodeCIEPSRequest, h1, h2, ciepsRequestFieldNames] at hk ⊢ <;>
      tauto
  · intro c k hk
    by_cases h1 : c.Error.isEmpty <;>
      by_cases h2 : c.Warnings.isEmpty <;>
      simp [encodeCIEPSResponse, h1, h2, ciepsResponseFieldNames] at hk ⊢ <;>
      tauto
  · intro fields r h
    exact decodeCIEPSResponse_aux_parsed fields emptyCIEPSResponse r h

theorem decodeCIEPSResponse_rejects_unknown_field_witness :
    ∃ e, decodeCIEPSResponse
      [(ascii "request_uuid", .jstr (ascii "u")), (ascii "surprise", .jbool true)] =
      .error e :=
  decodeCIEPSResponse_rejects_unknown_field _ (ascii "surprise") (.jbool true)
    (List.mem_cons_of_mem _ (List.mem_cons_self _ _)) (by decide)

theorem parseUserCSR_rejects_bad_csr_witness :
    (sampleRequest []).ParseUserCSR sampleParser =
      (sampleRequest [], some .missingCSRAttribute) ∧
    (sampleRequest [(ascii "csr", .jbool true)]).ParseUserCSR sampleParser =
      (sampleRequest [(ascii "csr", .jbool true)],
        some (.unexpectedCSRType (goTypeName (.jbool true)))) ∧
    (sampleRequest [(ascii "csr", .jstr [])]).ParseUserCSR sampleParser =
      (sampleRequest [(ascii "csr", .jstr [])], some .emptyCSRAttribute) :=
  ⟨(parseUserCSR_rejects_bad_csr sampleParser (sampleRequest [])).1 rfl,
   (parseUserCSR_rejects_bad_csr sampleParser _).2.1 (.jbool true) rfl
     (fun _ h => JValue.noConfusion h),
   (parseUserCSR_rejects_bad_csr sampleParser _).2.2.1 rfl⟩

theorem parseUserCSR_pem_block_discipline_witness :
    (sampleRequest [(ascii "csr",
        .jstr (ascii "-----BEGIN X-----\nAA==\n-----END X-----\nzz"))]).ParseUserCSR
        sampleParser =
      (sampleRequest [(ascii "csr",
        .jstr (ascii "-----BEGIN X-----\nAA==\n-----END X-----\nzz"))],
        some (.trailingData (ascii "zz").length)) :=
  (parseUserCSR_pem_block_discipline sampleParser
    (sampleRequest [(ascii "csr",
      .jstr (ascii "-----BEGIN X-----\nAA==\n-----END X-----\nzz"))])
    (ascii "-----BEGIN X-----\nAA==\n-----END X-----\nzz") rfl (by decide)).1
    (some ⟨ascii "X", [0]⟩) (ascii "zz") (by decide) (by decide)

theorem parseUserCSR_success_witness :
    (sampleRequest [(ascii "csr",
        .jstr (ascii "-----BEGIN X-----\nAA==\n-----END X-----\n"))]).ParseUserCSR
        sampleParser =
      ({ sampleRequest [(ascii "csr",
          .jstr (ascii "-----BEGIN X-----\nAA==\n-----END X-----\n"))] with
          ParsedCSR := some ⟨[0]⟩ }, none) :=
  parseUserCSR_success sampleParser
    (sampleRequest [(ascii "csr",
      .jstr (ascii "-----BEGIN X-----\nAA==\n-----END X-----\n"))])
    (ascii "-----BEGIN X-----\nAA==\n-----END X-----\n")
    ⟨ascii "X", [0]⟩ ⟨[0]⟩ rfl (by decide) (by decide) rfl

theorem marshalCertificate_spec_witness :
    (sampleResponse (some ⟨[48, 1, 2]⟩)).MarshalCertificate =
      ({ sampleResponse (some ⟨[48, 1, 2]⟩) with
          Certificate := pemEncodeToMemory ⟨ascii "CERTIFICATE", [48, 1, 2]⟩ }, none) :=
  (marshalCertificate_spec (sampleResponse (some ⟨[48, 1, 2]⟩))).2.1 ⟨[48, 1, 2]⟩ rfl
    (by decide)

theorem marshalCertificate_roundtrip_witness :
    (sampleResponse (some ⟨[48, 1, 2]⟩)).MarshalCertificate.2 = none ∧
    pemDecode (sampleResponse (some ⟨[48, 1, 2]⟩)).MarshalCertificate.1.Certificate =
      (some ⟨ascii "CERTIFICATE", [48, 1, 2]⟩, []) :=
  marshalCertificate_roundtrip _ ⟨[48, 1, 2]⟩ rfl (by decide) (by decide)

theorem parsed_fields_never_on_wire_witness :
    encodeCIEPSRequest { sampleRequest [] with ParsedCSR := some ⟨[48]⟩ } =
      encodeCIEPSRequest (sampleRequest []) ∧
    encodeCIEPSResponse { sampleResponse none with ParsedCertificate := some ⟨[48]⟩ } =
      encodeCIEPSResponse (sampleResponse none) ∧
    ({ emptyCIEPSResponse with UUID := ascii "u" } : CIEPSResponse).ParsedCertificate = none :=
  ⟨parsed_fields_never_on_wire.1 (sampleRequest []) (some ⟨[48]⟩),
   parsed_fields_never_on_wire.2.2.1 (sampleResponse none) (some ⟨[48]⟩),
   parsed_fields_never_on_wire.2.2.2.2 [(ascii "request_uuid", .jstr (ascii "u"))]
     { emptyCIEPSResponse with UUID := ascii "u" } rfl⟩

theorem parseUserCSR_frame_witness :
    ((sampleRequest []).ParseUserCSR sampleParser).1 = sampleRequest [] :=
  (parseUserCSR_frame sampleParser (sampleRequest [])).2.2.2.2.2.2.2 (by decide)

theorem standby_storecert_forwards_witness :
    dispatchCIEPSOutcome standbyRequest (sampleResponse none) =
      .forwardToActive standbyRequest :=
  (standby_storecert_forwards standbyRequest (sampleResponse none) rfl rfl).1

theorem marshalCertificate_frame_witness :
    ((sampleResponse none).MarshalCertificate).1 = sampleResponse none :=
  (marshalCertificate_frame (sampleResponse none)).2.2.2.2.2.2.2 (by decide)
